import Mathlib

/-!
Verification of the MIDI keyboard visualizer (three source variants:
`midi_visualizer.py`, `midi_visualizer_mov.py`, `midi_visualizer_moviepy.py`).

The development shallowly embeds the timeline builder (`parse_midi`), the
keyboard layout engine (`calculate_positions`), the per-key one-shot animation
state machine (the body of `draw_layer`), the asset loader's still-image path
(`load_static_image`), and the render loop of the animated variant
(`MidiVisualizer.run` in `midi_visualizer_mov.py`), and proves or refutes the
specification's claims about them.

Real time is modelled with exact rationals.  The Python sources accumulate
`current_time += 1/FPS` in IEEE-754 doubles; every concrete scenario proved
here was checked to behave identically under doubles and exact arithmetic
(in particular, with the 3-second trailing buffer of the animated variants the
float loop and the exact loop both produce 91 frames for a zero-duration
score).
-/

/- `Rat` arithmetic in the standard library is `@[irreducible]`; re-expose it
to definitional unfolding so that closed-form runs of the model can be
evaluated by `decide`.  This changes nothing about provability, only about
which proofs the evaluator can find. -/
set_option allowUnsafeReducibility true in
attribute [semireducible] Rat.add Rat.mul Rat.inv Rat.sub Rat.div Rat.neg

namespace MidiViz

/-! ## Configuration constants (source: the config block of the `_mov` variant) -/

def SCREEN_WIDTH : Int := 1280

def SCREEN_HEIGHT : Int := 720

def FPS : Nat := 30

/-- Spacing of one white key, in pixels (`GRID_KEY_WIDTH = 24`). -/
def GRID_KEY_WIDTH : Int := 24

def KEY_START_Y_OFFSET : Int := 0

/-- Trailing buffer of the animated variants' render loop:
`while running and current_time <= total_duration + 3.0`. -/
def TRAILING_SECONDS : ℚ := 3

/-! ## Timeline builder (`parse_midi`) -/

/-- A message of the merged track sequence.  Only the constructors the parser
inspects are distinguished; `setTempo` carries the embedded tempo-change value
(microseconds per beat) that the parser receives but never applies, and `meta`
stands for every other message kind (end-of-track and the like). -/
inductive MsgKind where
  | noteOn (note : Nat) (velocity : Nat)
  | noteOff (note : Nat)
  | setTempo (microsecondsPerBeat : Nat)
  | meta
deriving DecidableEq, Repr

/-- One merged-track message: a kind plus the delta time in ticks since the
previous message (`msg.time` in mido's merged stream). -/
structure Msg where
  kind : MsgKind
  delta : Nat
deriving DecidableEq, Repr

/-- `mido.tick2second(ticks, ticks_per_beat, tempo) = ticks * tempo / 1e6 / ticks_per_beat`,
with `tempo` in microseconds per beat. -/
def tick2second (ticks : Nat) (ticksPerBeat : Nat) (tempo : ℚ) : ℚ :=
  ticks * tempo / 1000000 / ticksPerBeat

/-- `mido.bpm2tempo(bpm) = int(round(60 * 1e6 / bpm))`. -/
def bpm2tempo (bpm : ℚ) : ℤ :=
  round (60000000 / bpm)

/-- An emitted note event of the onsets-only builder (`_mov` / `_moviepy`
variants): absolute time in seconds and the note number. -/
structure NoteEv where
  time : ℚ
  note : Nat
deriving DecidableEq, Repr

/-- The message loop of `parse_midi` in the `_mov`/`_moviepy` variants,
threading the running absolute time `cur`:
advance `cur` when `msg.time > 0`, and emit an event exactly for
`note_on` messages with `velocity > 0`. -/
def parseMsgs (tpb : Nat) (tempo : ℚ) (cur : ℚ) : List Msg → List NoteEv × ℚ
  | [] => ([], cur)
  | msg :: rest =>
    let cur2 := if 0 < msg.delta then cur + tick2second msg.delta tpb tempo else cur
    let r := parseMsgs tpb tempo cur2 rest
    match msg.kind with
    | .noteOn note v => if 0 < v then (⟨cur2, note⟩ :: r.1, r.2) else r
    | _ => r

/-- `parse_midi` of the `_mov`/`_moviepy` variants: returns the emitted
`NoteOn` events and `total_duration` (the final value of `current_time_sec`,
i.e. the accumulated time after the last message of the merged sequence). -/
def parse_midi (tpb : Nat) (tempo : ℚ) (msgs : List Msg) : List NoteEv × ℚ :=
  parseMsgs tpb tempo 0 msgs

/-- An emitted event of the binary-sounding builder (`midi_visualizer.py`):
`is_on` is true for `note_on` with positive velocity, false for `note_off`
or `note_on` with zero velocity. -/
structure NoteEv2 where
  time : ℚ
  note : Nat
  isOn : Bool
deriving DecidableEq, Repr

/-- The message loop of `parse_midi` in `midi_visualizer.py`: both note-ons
and note-offs are emitted (a `note_on` with velocity 0 counts as an off). -/
def parseMsgs2 (tpb : Nat) (tempo : ℚ) (cur : ℚ) : List Msg → List NoteEv2 × ℚ
  | [] => ([], cur)
  | msg :: rest =>
    let cur2 := if 0 < msg.delta then cur + tick2second msg.delta tpb tempo else cur
    let r := parseMsgs2 tpb tempo cur2 rest
    match msg.kind with
    | .noteOn note v => (⟨cur2, note, 0 < v⟩ :: r.1, r.2)
    | .noteOff note => (⟨cur2, note, false⟩ :: r.1, r.2)
    | _ => r

/-- `parse_midi` of `midi_visualizer.py` (binary-sounding mode). -/
def parse_midi_binary (tpb : Nat) (tempo : ℚ) (msgs : List Msg) :
    List NoteEv2 × ℚ :=
  parseMsgs2 tpb tempo 0 msgs

/-- Replace the payload-carrying tempo-change messages by plain meta messages,
keeping every delta time.  Used to state that embedded tempo changes are
never applied. -/
def scrubTempo (msgs : List Msg) : List Msg :=
  msgs.map fun m =>
    match m.kind with
    | .setTempo _ => ⟨.meta, m.delta⟩
    | _ => m

/-! ## Keyboard layout engine (`calculate_positions`) -/

/-- A key's screen placement: x/y of the anchor (the image is centered
horizontally on `x` when blitting) and the black/white classification. -/
structure KeyPos where
  x : Int
  y : Int
  isBlack : Bool
deriving DecidableEq, Repr

/-- Black-key test of the sources: `note % 12 in [1, 3, 6, 8, 10]`. -/
def isBlackKey (note : Nat) : Bool :=
  note % 12 == 1 || note % 12 == 3 || note % 12 == 6 ||
  note % 12 == 8 || note % 12 == 10

/-- One iteration of the layout loop of `calculate_positions`
(`_mov` variant): the accumulator carries `white_key_index` and the
positions list in insertion order.  A white key is placed at
`start_x + white_key_index * GRID_KEY_WIDTH` and increments the index; a
black key is placed at the *next* white key's slot
(`boundary_x = start_x + white_key_index * GRID_KEY_WIDTH`), shifted 20 px
up. -/
def positionsStep (startX startY : Int) (acc : Nat × List (Nat × KeyPos))
    (note : Nat) : Nat × List (Nat × KeyPos) :=
  if isBlackKey note then
    (acc.1, acc.2 ++ [(note, ⟨startX + acc.1 * GRID_KEY_WIDTH, startY - 20, true⟩)])
  else
    (acc.1 + 1, acc.2 ++ [(note, ⟨startX + acc.1 * GRID_KEY_WIDTH, startY, false⟩)])

/-- `calculate_positions` of the `_mov` variant: iterate notes 21..108,
centering the 52-white-key span on the canvas. -/
def calculate_positions : List (Nat × KeyPos) :=
  let totalWidth : Int := 52 * GRID_KEY_WIDTH
  let startX : Int := (SCREEN_WIDTH - totalWidth) / 2
  let startY : Int := SCREEN_HEIGHT / 2 + KEY_START_Y_OFFSET
  ((List.range 88).map (· + 21)).foldl (positionsStep startX startY) (0, []) |>.2

/-- Position lookup by note number, mirroring `positions[note]`. -/
def posOf (note : Nat) : Option KeyPos :=
  (calculate_positions.find? (fun p => p.1 == note)).map (·.2)

/-- The last white key strictly below `n`, in note order. -/
def prevWhite (n : Nat) : Option (Nat × KeyPos) :=
  (calculate_positions.filter (fun p => p.2.isBlack = false ∧ p.1 < n)).getLast?

/-- The first white key strictly above `n`, in note order. -/
def nextWhite (n : Nat) : Option (Nat × KeyPos) :=
  (calculate_positions.filter (fun p => p.2.isBlack = false ∧ n < p.1)).head?

/-! ## Per-key animation state machine -/

/-- Per-key animation state: `{'frame_index': ..., 'active': ...}`. -/
structure KeyState where
  frameIndex : Nat
  active : Bool
deriving DecidableEq, Repr

/-- All keys start Idle: `{'frame_index': 0, 'active': False}`. -/
def initStates : Nat → KeyState := fun _ => ⟨0, false⟩

/-- Functional update of the per-key state table. -/
def updateState (ks : Nat → KeyState) (note : Nat) (s : KeyState) :
    Nat → KeyState :=
  fun m => if m = note then s else ks m

/-- The event-processing body of the render loop: a `NoteOn` for an in-range
note resets that key to frame 0 and marks it active; out-of-range notes are
ignored (`if 21 <= note_num <= 108` in `_mov`, `if note in key_states` in
`_moviepy` — the dict's keys are exactly 21..108). -/
def processNoteOn (ks : Nat → KeyState) (note : Nat) : Nat → KeyState :=
  if 21 ≤ note ∧ note ≤ 108 then updateState ks note ⟨0, true⟩ else ks

/-- The per-key body of `draw_layer` for one tick: when active and
`frame_index < total_frames`, report the drawn frame index and increment;
when active and past the end, clear `active` (one-shot stop); when idle,
leave the state untouched and draw nothing. -/
def tickKey (frameCount : Nat) (s : KeyState) : Option Nat × KeyState :=
  if s.active then
    if s.frameIndex < frameCount then
      (some s.frameIndex, ⟨s.frameIndex + 1, true⟩)
    else
      (none, ⟨s.frameIndex, false⟩)
  else (none, s)

/-- States of one key's machine reachable from the initial Idle state under
the two mutations the sources perform: a `NoteOn` reset and a render tick. -/
inductive Reachable (frameCount : Nat) : KeyState → Prop where
  | init : Reachable frameCount ⟨0, false⟩
  | noteOn (s : KeyState) : Reachable frameCount s → Reachable frameCount ⟨0, true⟩
  | tick (s : KeyState) : Reachable frameCount s →
      Reachable frameCount (tickKey frameCount s).2

/-! ## Render loop of the animated variant (`_mov`) -/

/-- One blit issued by `draw_layer`: the key and the asset frame that was
drawn for it.  (The blit coordinates, derived from the key's position and
the frame's size, are not needed by any claim.) -/
structure Draw (α : Type) where
  note : Nat
  surf : α
deriving DecidableEq, Repr

/-- The inner `while` of the event-processing step: consume every pending
event whose time is `<= current_time`, resetting the key it names.  The
pending list is the suffix of the event list from `event_cursor` on, so
consuming the head is exactly `event_cursor += 1`. -/
def fireEvents (t : ℚ) : List NoteEv → (Nat → KeyState) →
    List NoteEv × (Nat → KeyState)
  | [], ks => ([], ks)
  | ev :: rest, ks =>
    if ev.time ≤ t then fireEvents t rest (processNoteOn ks ev.note)
    else (ev :: rest, ks)

/-- `draw_layer`: walk the positions in insertion order (notes ascending),
skip keys of the other classification, and run each matching key's
animation step, blitting `frames[frame_index]` when a frame is due. -/
def draw_layer (positions : List (Nat × KeyPos)) (frames : List α)
    (drawBlack : Bool) (ks : Nat → KeyState) :
    (Nat → KeyState) × List (Draw α) :=
  positions.foldl
    (fun acc np =>
      if np.2.isBlack != drawBlack then acc
      else
        let s := acc.1 np.1
        if s.active then
          if h : s.frameIndex < frames.length then
            (updateState acc.1 np.1 ⟨s.frameIndex + 1, true⟩,
              acc.2 ++ [⟨np.1, frames.get ⟨s.frameIndex, h⟩⟩])
          else
            (updateState acc.1 np.1 ⟨s.frameIndex, false⟩, acc.2)
        else acc)
    (ks, [])

/-- One iteration of the render loop, after the time step: fire due events,
draw the white layer, then the black layer on top.  The written video frame
is the ordered list of blits (background fill and the text overlay carry no
per-key content). -/
def renderTick (positions : List (Nat × KeyPos)) (fw fb : List α) (t : ℚ)
    (pending : List NoteEv) (ks : Nat → KeyState) :
    List NoteEv × (Nat → KeyState) × List (Draw α) :=
  let p1 := fireEvents t pending ks
  let w := draw_layer positions fw false p1.2
  let b := draw_layer positions fb true w.1
  (p1.1, b.1, w.2 ++ b.2)

/-- The render loop: `while current_time <= total_duration + 3.0`, advance
time by `1/FPS`, process events, draw, write one frame.  `fuel` bounds the
recursion; `none` means the fuel ran out before the loop exited. -/
def renderLoop (positions : List (Nat × KeyPos)) (fw fb : List α)
    (totalDuration : ℚ) :
    Nat → ℚ → List NoteEv → (Nat → KeyState) → Option (List (List (Draw α)))
  | 0, _, _, _ => none
  | fuel + 1, t, pending, ks =>
    if t ≤ totalDuration + TRAILING_SECONDS then
      let t2 := t + 1 / (FPS : ℚ)
      let r := renderTick positions fw fb t2 pending ks
      match renderLoop positions fw fb totalDuration fuel t2 r.1 r.2.1 with
      | none => none
      | some frames => some (r.2.2 :: frames)
    else some []

/-- Externally visible effects of a run, in order. -/
inductive Effect (α : Type) where
  | openEncoder
  | writeFrame (frame : List (Draw α))
  | releaseEncoder
deriving DecidableEq, Repr

/-- `MidiVisualizer.run` of the `_mov` variant, from the point where both
assets have been loaded: abort (no encoder is ever opened) when either frame
list is empty; otherwise parse the score, open the encoder, run the render
loop writing each frame in order, and release the encoder. -/
def run (fw fb : List α) (tpb : Nat) (tempo : ℚ) (msgs : List Msg)
    (fuel : Nat) : Option (List (Effect α)) :=
  if fw.isEmpty || fb.isEmpty then some []
  else
    let parsed := parse_midi tpb tempo msgs
    match renderLoop calculate_positions fw fb parsed.2 fuel 0 parsed.1 initStates with
    | none => none
    | some frames =>
      some (.openEncoder :: frames.map .writeFrame ++ [.releaseEncoder])

/-! ## Asset loader, still-image path (`load_static_image`) -/

/-- Python `int()` on an exact rational: truncation toward zero. -/
def pyInt (q : ℚ) : Int :=
  if 0 ≤ q then ⌊q⌋ else -⌊-q⌋

/-- `load_static_image`: on a successful decode the rescaled surface is
replicated `int(FPS * duration_sec)` times; a decode failure yields the
empty list.  `decoded = some img` stands for the decoded source surface and
`rescale` for the `smoothscale` step. -/
def load_static_image (decoded : Option α) (rescale : α → α)
    (durationSec : ℚ) : List α :=
  match decoded with
  | none => []
  | some img => List.replicate (pyInt ((FPS : ℚ) * durationSec)).toNat (rescale img)

/-! ## Binary-sounding mode state (`midi_visualizer.py` run loop) -/

/-- The per-event update of `active_notes` in the binary variant: a note-on
inserts, a note-off removes only when present. -/
def binaryStep (active : Finset Nat) (ev : NoteEv2) : Finset Nat :=
  if ev.isOn then insert ev.note active
  else if ev.note ∈ active then active.erase ev.note
  else active

/-! ## Derived notions used to state the claims -/

/-- Number of frames pushed to the encoder in a run trace. -/
def writeCount (tr : List (Effect α)) : Nat :=
  (tr.filter fun e => match e with | .writeFrame _ => true | _ => false).length

/-- Strict increase of a list of coordinates. -/
def strictlyIncreasing : List Int → Bool
  | a :: b :: rest => a < b && strictlyIncreasing (b :: rest)
  | _ => true

/-- The key's x-center is strictly to the right of the previous white key's. -/
def strictlyAfterPrevWhite (p : Nat × KeyPos) : Bool :=
  match prevWhite p.1 with
  | some pw => pw.2.x < p.2.x
  | none => false

/-- The key's x-center is strictly to the left of the next white key's. -/
def strictlyBeforeNextWhite (p : Nat × KeyPos) : Bool :=
  match nextWhite p.1 with
  | some nw => p.2.x < nw.2.x
  | none => false

/-- The key's x-center coincides with the next white key's. -/
def atNextWhite (p : Nat × KeyPos) : Bool :=
  match nextWhite p.1 with
  | some nw => p.2.x == nw.2.x
  | none => false

/-- The end-to-end scenario's score: a single onset for note 60 at tick 0
(one `note_on` message with positive velocity and delta 0). -/
def scenarioMsgs : List Msg := [⟨.noteOn 60 100, 0⟩]

/-- The end-to-end scenario's run: a 10-frame white-key asset (frames are
their indices `0..9`), ticks-per-beat 480, tempo 500000 µs/beat
(= 120 BPM), ample fuel. -/
def scenarioRun : Option (List (Effect Nat)) :=
  run (List.range 10) (List.range 10) 480 500000 scenarioMsgs 200

/-! ## Theorems -/

set_option maxRecDepth 100000 in
/-- C2, counterexample.  For the end-to-end scenario (single onset of note 60
at tick 0, `ticksPerBeat = 480`, 120 BPM, 10-frame white-key asset, 30 fps)
the animated variant's render loop writes 91 frames — its trailing buffer is
the 3 seconds hard-coded in the source, not the 2 seconds the claim assumes —
so the claimed count of exactly 60 frames is false. -/
theorem c2_counterexample :
    bpm2tempo 120 = 500000 ∧
    scenarioRun.map writeCount = some 91 ∧ (91 : Nat) ≠ 60 := by decide

set_option maxRecDepth 100000 in
/-- C2, amended.  End-to-end scenario against the code as written
(trailing buffer 3 s): the builder returns `totalDuration = 0`, the render
loop writes exactly 91 frames to the encoder (in order, between opening and
releasing it), output frames 0–9 blit exactly the white-key asset's frames
0–9 for note 60, and no frame from index 10 on carries any key-60 (or any
other) content. -/
theorem c2_end_to_end :
    bpm2tempo 120 = 500000 ∧
    (parse_midi 480 500000 scenarioMsgs).2 = 0 ∧
    scenarioRun = some (.openEncoder ::
      ((List.range 91).map fun k =>
        .writeFrame (if k < 10 then [⟨60, k⟩] else [])) ++
      [.releaseEncoder]) := by decide

/-- C4, counterexample.  Black key 22 (A#0) is placed at x-center 40, which
*equals* the x-center of its next white neighbour 23 (B0) instead of lying
strictly between the neighbouring white keys' x-centers (16 and 40). -/
theorem c4_counterexample :
    posOf 22 = some ⟨40, 340, true⟩ ∧
    prevWhite 22 = some (21, ⟨16, 360, false⟩) ∧
    nextWhite 22 = some (23, ⟨40, 360, false⟩) ∧
    strictlyBeforeNextWhite (22, ⟨40, 340, true⟩) = false := by decide

/-- C4, amended.  The layout engine produces exactly 52 white and 36 black
positions for notes 21–108; white x-centers strictly increase; every black
key's x-center is strictly greater than its previous white neighbour's but
*equal* to its next white neighbour's (the seam formula of the source places
the black key on the next white key's slot); and no two keys of the same
classification share an x-center. -/
theorem c4_layout :
    (calculate_positions.filter (fun p => p.2.isBlack = false)).length = 52 ∧
    (calculate_positions.filter (fun p => p.2.isBlack = true)).length = 36 ∧
    strictlyIncreasing
      ((calculate_positions.filter (fun p => p.2.isBlack = false)).map
        (·.2.x)) = true ∧
    (∀ p ∈ calculate_positions, p.2.isBlack = true →
      strictlyAfterPrevWhite p = true ∧ atNextWhite p = true) ∧
    List.Pairwise (fun p q => p.2.isBlack = q.2.isBlack → p.2.x ≠ q.2.x)
      calculate_positions := by decide

/-- C3, counterexample.  A score whose merged sequence ends with a non-note
message carrying a 480-tick delta after the single onset: the last emitted
event's time is 0, but `parse_midi` returns `totalDuration = 1/2` — trailing
non-note deltas do increase `totalDuration`. -/
theorem c3_counterexample :
    (parse_midi 480 500000 [⟨.noteOn 60 100, 0⟩, ⟨.meta, 480⟩]).1 =
      [⟨0, 60⟩] ∧
    (parse_midi 480 500000 [⟨.noteOn 60 100, 0⟩, ⟨.meta, 480⟩]).2 = 1/2 ∧
    ((1 : ℚ)/2 ≠ 0) := by decide

/-! ### Lemmas about the timeline builder -/

lemma tick2second_nonneg (ticks tpb : Nat) (tempo : ℚ) (h : 0 ≤ tempo) :
    0 ≤ tick2second ticks tpb tempo := by
  unfold tick2second
  have h1 : (0 : ℚ) ≤ (ticks : ℚ) * tempo := mul_nonneg (Nat.cast_nonneg _) h
  have h2 : (0 : ℚ) ≤ (ticks : ℚ) * tempo / 1000000 := by positivity
  positivity

/-- Seconds contributed by the delta times of a message list, in the parser's
convention (a zero delta contributes nothing). -/
def secondsOfDeltas (tpb : Nat) (tempo : ℚ) : List Msg → ℚ
  | [] => 0
  | m :: rest =>
    (if 0 < m.delta then tick2second m.delta tpb tempo else 0) +
      secondsOfDeltas tpb tempo rest

lemma secondsOfDeltas_nonneg (tpb : Nat) (tempo : ℚ) (h : 0 ≤ tempo) :
    ∀ msgs : List Msg, 0 ≤ secondsOfDeltas tpb tempo msgs
  | [] => le_refl 0
  | m :: rest => by
    unfold secondsOfDeltas
    have h1 := secondsOfDeltas_nonneg tpb tempo h rest
    have h2 : (0 : ℚ) ≤ if 0 < m.delta then tick2second m.delta tpb tempo else 0 := by
      split
      · exact tick2second_nonneg _ _ _ h
      · exact le_refl 0
    linarith

lemma secondsOfDeltas_zero (tpb : Nat) (tempo : ℚ) :
    ∀ msgs : List Msg, (∀ m ∈ msgs, m.delta = 0) →
      secondsOfDeltas tpb tempo msgs = 0
  | [], _ => rfl
  | m :: rest, h => by
    have hm : m.delta = 0 := h m (List.mem_cons_self m rest)
    have hr := secondsOfDeltas_zero tpb tempo rest
      (fun x hx => h x (List.mem_cons_of_mem m hx))
    simp [secondsOfDeltas, hm, hr]

lemma parseMsgs_snd (tpb : Nat) (tempo : ℚ) :
    ∀ (msgs : List Msg) (cur : ℚ),
      (parseMsgs tpb tempo cur msgs).2 = cur + secondsOfDeltas tpb tempo msgs
  | [], cur => by simp [parseMsgs, secondsOfDeltas]
  | msg :: rest, cur => by
    have ih := parseMsgs_snd tpb tempo rest
    simp only [parseMsgs, secondsOfDeltas]
    cases msg.kind with
    | noteOn note v =>
      by_cases hv : 0 < v <;> simp [hv, ih] <;> split <;> ring
    | noteOff note => simp [ih]; split <;> simp [add_assoc]
    | setTempo x => simp [ih]; split <;> simp [add_assoc]
    | meta => simp [ih]; split <;> simp [add_assoc]

lemma parseMsgs2_snd (tpb : Nat) (tempo : ℚ) :
    ∀ (msgs : List Msg) (cur : ℚ),
      (parseMsgs2 tpb tempo cur msgs).2 = cur + secondsOfDeltas tpb tempo msgs
  | [], cur => by simp [parseMsgs2, secondsOfDeltas]
  | msg :: rest, cur => by
    have ih := parseMsgs2_snd tpb tempo rest
    simp only [parseMsgs2, secondsOfDeltas]
    cases msg.kind with
    | noteOn note v => simp [ih]; split <;> simp [add_assoc]
    | noteOff note => simp [ih]; split <;> simp [add_assoc]
    | setTempo x => simp [ih]; split <;> simp [add_assoc]
    | meta => simp [ih]; split <;> simp [add_assoc]

lemma parseMsgs_time_bounds (tpb : Nat) (tempo : ℚ) (h : 0 ≤ tempo) :
    ∀ (msgs : List Msg) (cur : ℚ) (ev : NoteEv),
      ev ∈ (parseMsgs tpb tempo cur msgs).1 →
      cur ≤ ev.time ∧ ev.time ≤ cur + secondsOfDeltas tpb tempo msgs := by
  intro msgs
  induction msgs with
  | nil => intro cur ev hev; simp [parseMsgs] at hev
  | cons msg rest ih =>
    obtain ⟨kind, delta⟩ := msg
    intro cur ev hev
    simp only [parseMsgs] at hev
    simp only [secondsOfDeltas]
    have hinc0 : (0 : ℚ) ≤
        (if 0 < delta then tick2second delta tpb tempo else 0) := by
      split
      · exact tick2second_nonneg _ _ _ h
      · exact le_refl 0
    have hS : 0 ≤ secondsOfDeltas tpb tempo rest :=
      secondsOfDeltas_nonneg tpb tempo h rest
    have hcur2 : (if 0 < delta then cur + tick2second delta tpb tempo else cur) =
        cur + (if 0 < delta then tick2second delta tpb tempo else 0) := by
      split <;> simp
    rw [hcur2] at hev
    set inc : ℚ := if 0 < delta then tick2second delta tpb tempo else 0
    cases kind with
    | noteOn note v =>
      by_cases hv : 0 < v
      · simp only [hv, if_pos] at hev
        rcases List.mem_cons.mp hev with rfl | hev2
        · constructor
          · show cur ≤ cur + inc
            linarith
          · show cur + inc ≤ cur + (inc + secondsOfDeltas tpb tempo rest)
            linarith
        · have hb := ih (cur + inc) ev hev2
          exact ⟨by linarith [hb.1], by linarith [hb.2]⟩
      · simp only [hv, if_neg, not_false_iff] at hev
        have hb := ih (cur + inc) ev hev
        exact ⟨by linarith [hb.1], by linarith [hb.2]⟩
    | noteOff note =>
      have hb := ih (cur + inc) ev hev
      exact ⟨by linarith [hb.1], by linarith [hb.2]⟩
    | setTempo x =>
      have hb := ih (cur + inc) ev hev
      exact ⟨by linarith [hb.1], by linarith [hb.2]⟩
    | meta =>
      have hb := ih (cur + inc) ev hev
      exact ⟨by linarith [hb.1], by linarith [hb.2]⟩

lemma parseMsgs2_time_bounds (tpb : Nat) (tempo : ℚ) (h : 0 ≤ tempo) :
    ∀ (msgs : List Msg) (cur : ℚ) (ev : NoteEv2),
      ev ∈ (parseMsgs2 tpb tempo cur msgs).1 →
      cur ≤ ev.time ∧ ev.time ≤ cur + secondsOfDeltas tpb tempo msgs := by
  intro msgs
  induction msgs with
  | nil => intro cur ev hev; simp [parseMsgs2] at hev
  | cons msg rest ih =>
    obtain ⟨kind, delta⟩ := msg
    intro cur ev hev
    simp only [parseMsgs2] at hev
    simp only [secondsOfDeltas]
    have hinc0 : (0 : ℚ) ≤
        (if 0 < delta then tick2second delta tpb tempo else 0) := by
      split
      · exact tick2second_nonneg _ _ _ h
      · exact le_refl 0
    have hS : 0 ≤ secondsOfDeltas tpb tempo rest :=
      secondsOfDeltas_nonneg tpb tempo h rest
    have hcur2 : (if 0 < delta then cur + tick2second delta tpb tempo else cur) =
        cur + (if 0 < delta then tick2second delta tpb tempo else 0) := by
      split <;> simp
    rw [hcur2] at hev
    set inc : ℚ := if 0 < delta then tick2second delta tpb tempo else 0
    cases kind with
    | noteOn note v =>
      rcases List.mem_cons.mp hev with rfl | hev2
      · constructor
        · show cur ≤ cur + inc
          linarith
        · show cur + inc ≤ cur + (inc + secondsOfDeltas tpb tempo rest)
          linarith
      · have hb := ih (cur + inc) ev hev2
        exact ⟨by linarith [hb.1], by linarith [hb.2]⟩
    | noteOff note =>
      rcases List.mem_cons.mp hev with rfl | hev2
      · constructor
        · show cur ≤ cur + inc
          linarith
        · show cur + inc ≤ cur + (inc + secondsOfDeltas tpb tempo rest)
          linarith
      · have hb := ih (cur + inc) ev hev2
        exact ⟨by linarith [hb.1], by linarith [hb.2]⟩
    | setTempo x =>
      have hb := ih (cur + inc) ev hev
      exact ⟨by linarith [hb.1], by linarith [hb.2]⟩
    | meta =>
      have hb := ih (cur + inc) ev hev
      exact ⟨by linarith [hb.1], by linarith [hb.2]⟩

lemma parseMsgs_sorted (tpb : Nat) (tempo : ℚ) (h : 0 ≤ tempo) :
    ∀ (msgs : List Msg) (cur : ℚ),
      ((parseMsgs tpb tempo cur msgs).1.map NoteEv.time).Sorted (· ≤ ·) := by
  intro msgs
  induction msgs with
  | nil => intro cur; simp [parseMsgs]
  | cons msg rest ih =>
    obtain ⟨kind, delta⟩ := msg
    intro cur
    simp only [parseMsgs]
    cases kind with
    | noteOn note v =>
      by_cases hv : 0 < v
      · simp only [hv, if_pos, List.map_cons]
        rw [List.sorted_cons]
        refine ⟨?_, ih _⟩
        intro b hb
        simp only [List.mem_map] at hb
        obtain ⟨ev, hev, rfl⟩ := hb
        exact (parseMsgs_time_bounds tpb tempo h rest _ ev hev).1
      · simpa [hv] using ih _
    | noteOff note => exact ih _
    | setTempo x => exact ih _
    | meta => exact ih _

lemma parseMsgs2_sorted (tpb : Nat) (tempo : ℚ) (h : 0 ≤ tempo) :
    ∀ (msgs : List Msg) (cur : ℚ),
      ((parseMsgs2 tpb tempo cur msgs).1.map NoteEv2.time).Sorted (· ≤ ·) := by
  intro msgs
  induction msgs with
  | nil => intro cur; simp [parseMsgs2]
  | cons msg rest ih =>
    obtain ⟨kind, delta⟩ := msg
    intro cur
    simp only [parseMsgs2]
    cases kind with
    | noteOn note v =>
      simp only [List.map_cons]
      rw [List.sorted_cons]
      refine ⟨?_, ih _⟩
      intro b hb
      simp only [List.mem_map] at hb
      obtain ⟨ev, hev, rfl⟩ := hb
      exact (parseMsgs2_time_bounds tpb tempo h rest _ ev hev).1
    | noteOff note =>
      simp only [List.map_cons]
      rw [List.sorted_cons]
      refine ⟨?_, ih _⟩
      intro b hb
      simp only [List.mem_map] at hb
      obtain ⟨ev, hev, rfl⟩ := hb
      exact (parseMsgs2_time_bounds tpb tempo h rest _ ev hev).1
    | setTempo x => exact ih _
    | meta => exact ih _

lemma parseMsgs_scrub (tpb : Nat) (tempo : ℚ) :
    ∀ (msgs : List Msg) (cur : ℚ),
      parseMsgs tpb tempo cur (scrubTempo msgs) = parseMsgs tpb tempo cur msgs := by
  intro msgs
  induction msgs with
  | nil => intro cur; rfl
  | cons msg rest ih =>
    obtain ⟨kind, delta⟩ := msg
    intro cur
    cases kind <;>
      simp only [scrubTempo, List.map_cons, parseMsgs] at ih ⊢ <;>
      rw [ih]

lemma parseMsgs2_scrub (tpb : Nat) (tempo : ℚ) :
    ∀ (msgs : List Msg) (cur : ℚ),
      parseMsgs2 tpb tempo cur (scrubTempo msgs) = parseMsgs2 tpb tempo cur msgs := by
  intro msgs
  induction msgs with
  | nil => intro cur; rfl
  | cons msg rest ih =>
    obtain ⟨kind, delta⟩ := msg
    intro cur
    cases kind <;>
      simp only [scrubTempo, List.map_cons, parseMsgs2] at ih ⊢ <;>
      rw [ih]

/-- C3, amended.  `totalDuration` is the running time accumulated over *all*
messages of the merged sequence — a pure function of the delta times, which
trailing non-note messages do contribute to.  Every emitted event's time is
bounded by `totalDuration` (equality can fail, per the counterexample), and a
score none of whose messages carries a positive delta (in particular the
empty score) yields `totalDuration = 0`. -/
theorem c3_total_duration (tpb : Nat) (tempo : ℚ) (msgs : List Msg)
    (h : 0 ≤ tempo) :
    (parse_midi tpb tempo msgs).2 = secondsOfDeltas tpb tempo msgs ∧
    (∀ ev ∈ (parse_midi tpb tempo msgs).1,
      ev.time ≤ (parse_midi tpb tempo msgs).2) ∧
    ((∀ m ∈ msgs, m.delta = 0) → (parse_midi tpb tempo msgs).2 = 0) := by
  have h1 : (parse_midi tpb tempo msgs).2 = secondsOfDeltas tpb tempo msgs := by
    unfold parse_midi
    rw [parseMsgs_snd tpb tempo msgs 0, zero_add]
  refine ⟨h1, ?_, ?_⟩
  · intro ev hev
    have hb := parseMsgs_time_bounds tpb tempo h msgs 0 ev hev
    rw [h1]
    linarith [hb.2]
  · intro hz
    rw [h1]
    exact secondsOfDeltas_zero tpb tempo msgs hz

/-- C3, witness for the amended theorem at the counterexample's score. -/
theorem c3_total_duration_witness :
    (parse_midi 480 500000 [⟨.noteOn 60 100, 0⟩, ⟨.meta, 480⟩]).2 =
      secondsOfDeltas 480 500000 [⟨.noteOn 60 100, 0⟩, ⟨.meta, 480⟩] ∧
    (∀ ev ∈ (parse_midi 480 500000 [⟨.noteOn 60 100, 0⟩, ⟨.meta, 480⟩]).1,
      ev.time ≤ (parse_midi 480 500000 [⟨.noteOn 60 100, 0⟩, ⟨.meta, 480⟩]).2) ∧
    ((∀ m ∈ [(⟨.noteOn 60 100, 0⟩ : Msg), ⟨.meta, 480⟩], m.delta = 0) →
      (parse_midi 480 500000 [⟨.noteOn 60 100, 0⟩, ⟨.meta, 480⟩]).2 = 0) :=
  c3_total_duration 480 500000 [⟨.noteOn 60 100, 0⟩, ⟨.meta, 480⟩]
    (by norm_num)

/-- C5.  Emitted event times are nondecreasing (in both builder modes), and
both builders are invariant under rewriting every embedded tempo-change
message to an inert message with the same delta time: the tempo-change's
payload is parsed but never applied, so event times and `totalDuration`
depend only on the tick deltas, the ticks-per-beat header and the externally
fixed tempo. -/
theorem c5_timeline (tpb : Nat) (tempo : ℚ) (msgs : List Msg)
    (h : 0 ≤ tempo) :
    ((parse_midi tpb tempo msgs).1.map NoteEv.time).Sorted (· ≤ ·) ∧
    ((parse_midi_binary tpb tempo msgs).1.map NoteEv2.time).Sorted (· ≤ ·) ∧
    parse_midi tpb tempo (scrubTempo msgs) = parse_midi tpb tempo msgs ∧
    parse_midi_binary tpb tempo (scrubTempo msgs) =
      parse_midi_binary tpb tempo msgs :=
  ⟨parseMsgs_sorted tpb tempo h msgs 0,
   parseMsgs2_sorted tpb tempo h msgs 0,
   parseMsgs_scrub tpb tempo msgs 0,
   parseMsgs2_scrub tpb tempo msgs 0⟩

/-- C5, witness: a score with a delta-carrying tempo change between two
onsets. -/
theorem c5_timeline_witness :
    ((parse_midi 480 500000
        [⟨.noteOn 60 100, 0⟩, ⟨.setTempo 200000, 240⟩, ⟨.noteOn 62 100, 240⟩]).1.map
      NoteEv.time).Sorted (· ≤ ·) ∧
    ((parse_midi_binary 480 500000
        [⟨.noteOn 60 100, 0⟩, ⟨.setTempo 200000, 240⟩, ⟨.noteOn 62 100, 240⟩]).1.map
      NoteEv2.time).Sorted (· ≤ ·) ∧
    parse_midi 480 500000 (scrubTempo
        [⟨.noteOn 60 100, 0⟩, ⟨.setTempo 200000, 240⟩, ⟨.noteOn 62 100, 240⟩]) =
      parse_midi 480 500000
        [⟨.noteOn 60 100, 0⟩, ⟨.setTempo 200000, 240⟩, ⟨.noteOn 62 100, 240⟩] ∧
    parse_midi_binary 480 500000 (scrubTempo
        [⟨.noteOn 60 100, 0⟩, ⟨.setTempo 200000, 240⟩, ⟨.noteOn 62 100, 240⟩]) =
      parse_midi_binary 480 500000
        [⟨.noteOn 60 100, 0⟩, ⟨.setTempo 200000, 240⟩, ⟨.noteOn 62 100, 240⟩] :=
  c5_timeline 480 500000
    [⟨.noteOn 60 100, 0⟩, ⟨.setTempo 200000, 240⟩, ⟨.noteOn 62 100, 240⟩]
    (by norm_num)

/-! ### Lemmas about the per-key state machine -/

lemma tickKey_draw_lt (frameCount : Nat) (s : KeyState) (i : Nat)
    (h : (tickKey frameCount s).1 = some i) : i < frameCount := by
  unfold tickKey at h
  by_cases ha : s.active
  · by_cases hf : s.frameIndex < frameCount
    · simp only [ha, if_true, hf] at h
      have : s.frameIndex = i := by simpa using h
      omega
    · simp [ha, hf] at h
  · simp [ha] at h

lemma tickKey_at_end (frameCount : Nat) (s : KeyState) (ha : s.active = true)
    (hf : s.frameIndex = frameCount) :
    tickKey frameCount s = (none, ⟨frameCount, false⟩) := by
  subst hf
  simp [tickKey, ha]

lemma reachable_frameIndex_le (frameCount : Nat) (s : KeyState)
    (h : Reachable frameCount s) : s.frameIndex ≤ frameCount := by
  induction h with
  | init => exact Nat.zero_le _
  | noteOn s hs ih => exact Nat.zero_le _
  | tick s hs ih =>
    unfold tickKey
    by_cases ha : s.active
    · by_cases hf : s.frameIndex < frameCount
      · simp only [ha, if_true, hf]
        omega
      · simpa [ha, hf] using ih
    · simpa [ha] using ih

/-- C1, counterexample.  With a 1-frame asset, the state reached by
triggering a key and letting one render tick pass is
`frameIndex = 1 = frameCount` **with `active` still true**: the source only
clears `active` on the *following* tick (the `else` branch of `draw_layer`),
so the claimed invariant `active → frameIndex < frameCount` fails, and the
machine is not Idle right after the tick that draws the last frame. -/
theorem c1_counterexample :
    Reachable 1 ⟨1, true⟩ ∧
    (KeyState.mk 1 true).active = true ∧
    ¬ (KeyState.mk 1 true).frameIndex < 1 := by
  refine ⟨?_, rfl, by decide⟩
  have h1 : Reachable 1 ⟨0, true⟩ :=
    Reachable.noteOn ⟨0, false⟩ Reachable.init
  have h2 := Reachable.tick ⟨0, true⟩ h1
  simpa [tickKey] using h2

/-- C1, amended.  For every reachable state of the per-key machine,
`frameIndex ≤ frameCount` (so `frameIndex ∈ [0, frameCount]`, not
`[0, frameCount)`); a frame index is *drawn* only when it is strictly below
`frameCount`; and from the overshoot state (`active` with
`frameIndex = frameCount`, reached right after the tick that draws the last
frame) the next tick draws nothing and transitions to Idle — the transition
happens one tick later than the claim states. -/
theorem c1_state_machine (frameCount : Nat) (s : KeyState)
    (h : Reachable frameCount s) :
    s.frameIndex ≤ frameCount ∧
    (∀ i, (tickKey frameCount s).1 = some i → i < frameCount) ∧
    (s.active = true → s.frameIndex = frameCount →
      tickKey frameCount s = (none, ⟨frameCount, false⟩)) :=
  ⟨reachable_frameIndex_le frameCount s h,
   fun i hi => tickKey_draw_lt frameCount s i hi,
   fun ha hf => tickKey_at_end frameCount s ha hf⟩

/-- C1, witness: the amended theorem applied to the overshoot state
`⟨1, true⟩` reachable for a 1-frame asset. -/
theorem c1_state_machine_witness :
    (KeyState.mk 1 true).frameIndex ≤ 1 ∧
    (∀ i, (tickKey 1 ⟨1, true⟩).1 = some i → i < 1) ∧
    ((KeyState.mk 1 true).active = true → (KeyState.mk 1 true).frameIndex = 1 →
      tickKey 1 ⟨1, true⟩ = (none, ⟨1, false⟩)) :=
  c1_state_machine 1 ⟨1, true⟩ (by
    have h1 : Reachable 1 ⟨0, true⟩ :=
      Reachable.noteOn ⟨0, false⟩ Reachable.init
    have h2 := Reachable.tick ⟨0, true⟩ h1
    simpa [tickKey] using h2)

/-- C6.  A `NoteOn` for an in-range note processed while the key is already
`Playing` resets the state to `frameIndex = 0, active = true`
unconditionally, and the next render tick therefore draws the asset's frame
0 (for any nonempty asset), regardless of how far playback had progressed. -/
theorem c6_retrigger (ks : Nat → KeyState) (note frameCount : Nat)
    (hlo : 21 ≤ note) (hhi : note ≤ 108)
    (hplaying : (ks note).active = true) (hfc : 0 < frameCount) :
    processNoteOn ks note note = ⟨0, true⟩ ∧
    (tickKey frameCount (processNoteOn ks note note)).1 = some 0 := by
  have h1 : processNoteOn ks note note = ⟨0, true⟩ := by
    simp [processNoteOn, updateState, hlo, hhi]
  refine ⟨h1, ?_⟩
  rw [h1]
  simp [tickKey, hfc]

/-- C6, witness: a key at frame 5 of a 10-frame asset is retriggered. -/
theorem c6_retrigger_witness :
    processNoteOn (fun _ => ⟨5, true⟩) 60 60 = ⟨0, true⟩ ∧
    (tickKey 10 (processNoteOn (fun _ => ⟨5, true⟩) 60 60)).1 = some 0 :=
  c6_retrigger (fun _ => ⟨5, true⟩) 60 10 (by omega) (by omega) rfl (by omega)

/-- C9.  A `NoteOn` event whose note number is outside 21..108 is a total
no-op on the per-key states — the guarded branch leaves every key's state
unchanged and raises nothing — and processing it merely consumes the event
(the cursor advances past it). -/
theorem c9_out_of_range_noop (ks : Nat → KeyState) (note : Nat) (tev t : ℚ)
    (rest : List NoteEv) (h : ¬ (21 ≤ note ∧ note ≤ 108)) (ht : tev ≤ t) :
    processNoteOn ks note = ks ∧
    (∀ k, processNoteOn ks note k = ks k) ∧
    fireEvents t (⟨tev, note⟩ :: rest) ks = fireEvents t rest ks := by
  have h1 : processNoteOn ks note = ks := by simp [processNoteOn, h]
  refine ⟨h1, fun k => by rw [h1], ?_⟩
  show (if tev ≤ t then fireEvents t rest (processNoteOn ks note)
    else (⟨tev, note⟩ :: rest, ks)) = fireEvents t rest ks
  rw [if_pos ht, h1]

/-- C9, witness: a due event for note 120 against the initial states. -/
theorem c9_out_of_range_noop_witness :
    processNoteOn initStates 120 = initStates ∧
    (∀ k, processNoteOn initStates 120 k = initStates k) ∧
    fireEvents 1 (⟨0, 120⟩ :: []) initStates = fireEvents 1 [] initStates :=
  c9_out_of_range_noop initStates 120 0 1 [] (by omega) (by norm_num)

/-- C10.  In the binary-sounding variant, a `NoteOff` for a note not in
`active_notes` leaves the set unchanged: the removal is guarded by a
membership test, so an unmatched `NoteOff` cannot fault. -/
theorem c10_unmatched_noteoff (active : Finset Nat) (ev : NoteEv2)
    (hoff : ev.isOn = false) (hmem : ev.note ∉ active) :
    binaryStep active ev = active := by
  simp [binaryStep, hoff, hmem]

/-- C10, witness: a `NoteOff` for note 60 against the empty set. -/
theorem c10_unmatched_noteoff_witness :
    binaryStep ∅ ⟨0, 60, false⟩ = ∅ :=
  c10_unmatched_noteoff ∅ ⟨0, 60, false⟩ rfl (by simp)

/-- C8.  When either per-key asset decodes to an empty frame sequence, the
run returns before the encoder is ever opened: the effect trace is empty —
no encoder-open and no frame write occurs, for any score and any fuel. -/
theorem c8_abort_before_encoder {α : Type} (fw fb : List α) (tpb : Nat)
    (tempo : ℚ) (msgs : List Msg) (fuel : Nat) (h : fw = [] ∨ fb = []) :
    run fw fb tpb tempo msgs fuel = some [] ∧
    ∀ tr, run fw fb tpb tempo msgs fuel = some tr →
      Effect.openEncoder ∉ tr ∧ ∀ f, Effect.writeFrame f ∉ tr := by
  have hrun : run fw fb tpb tempo msgs fuel = some [] := by
    rcases h with h | h <;> simp [run, h]
  refine ⟨hrun, fun tr htr => ?_⟩
  rw [hrun] at htr
  obtain rfl : tr = [] := by simpa using htr.symm
  exact ⟨by simp, fun f => by simp⟩

/-- C8, witness: an empty white asset with a nonempty black asset. -/
theorem c8_abort_before_encoder_witness :
    run ([] : List Nat) [0] 480 500000 scenarioMsgs 5 = some [] ∧
    ∀ tr, run ([] : List Nat) [0] 480 500000 scenarioMsgs 5 = some tr →
      Effect.openEncoder ∉ tr ∧ ∀ f, Effect.writeFrame f ∉ tr :=
  c8_abort_before_encoder [] [0] 480 500000 scenarioMsgs 5 (Or.inl rfl)

/-- C7, counterexample.  `load_static_image` computes the frame count with
Python `int()` (truncation), not `round`: at 30 fps and a 0.05 s duration
the code produces 1 frame while `round(30 × 0.05) = round(1.5) = 2`. -/
theorem c7_counterexample :
    (load_static_image (some 0) id ((1 : ℚ)/20)).length = 1 ∧
    round ((FPS : ℚ) * ((1 : ℚ)/20)) = 2 := by
  constructor
  · decide
  · norm_num [round_eq, FPS]

/-- C7, amended.  For a successfully decoded still image, the frame sequence
has length `int(outputFPS × duration)` — truncation toward zero, which equals
the floor for the nonnegative durations used, not `round` — and every frame
of the sequence is the one decoded, rescaled frame. -/
theorem c7_static_image {α : Type} (img : α) (rescale : α → α)
    (duration : ℚ) (h : 0 ≤ duration) :
    (load_static_image (some img) rescale duration).length =
      (pyInt ((FPS : ℚ) * duration)).toNat ∧
    pyInt ((FPS : ℚ) * duration) = ⌊(FPS : ℚ) * duration⌋ ∧
    ∀ f ∈ load_static_image (some img) rescale duration, f = rescale img := by
  refine ⟨by simp [load_static_image], ?_, ?_⟩
  · unfold pyInt
    rw [if_pos (mul_nonneg (by positivity) h)]
  · intro f hf
    simp only [load_static_image, List.mem_replicate] at hf
    exact hf.2

/-- C7, witness: the one-second default duration. -/
theorem c7_static_image_witness :
    (load_static_image (some 7) id (1 : ℚ)).length =
      (pyInt ((FPS : ℚ) * 1)).toNat ∧
    pyInt ((FPS : ℚ) * 1) = ⌊(FPS : ℚ) * 1⌋ ∧
    ∀ f ∈ load_static_image (some 7) id (1 : ℚ), f = id 7 :=
  c7_static_image 7 id 1 (by norm_num)

end MidiViz
